import Mathlib

/-!
# Amazon HeatMap Studio — overlay renderer, shallow embedding

This file embeds the `HeatmapOverlay` component (the image metrics resolver
and the overlay rasterizer) together with the data model from the
application's type declarations, and proves the specification claims about
them.

Conventions:
* JS numbers on the data path are modelled as `ℚ` (the renderer's
  arithmetic is exact on the decimal constants appearing in the source).
* The canvas 2D context is modelled as a state record (`CtxState`) plus a
  trace of drawing operations (`CanvasOp`); each emitted operation records
  the context state it was executed under (fill style, composite
  operation, shadow blur), which is exactly the information the canvas
  rasterizer consumes.
* Pixel-level semantics (`rasterize`) interprets the trace over a surface
  of premultiplied-alpha real-valued pixels.  Operations whose rasterized
  geometry depends on environment details that the 2D canvas specification
  leaves open (shadowed fills, dashed strokes, glyph shapes) are
  interpreted through an arbitrary source-coverage interpretation
  `interp`, universally quantified in the theorems; their compositing is
  still exact.
-/

namespace HeatMapStudio

/-! ## Data model (types.ts re-exported through App.tsx) -/

/-- `VisualizationMode = 'heatmap' | 'fogmap' | 'path'`. -/
inductive VisualizationMode
  | heatmap
  | fogmap
  | path
deriving DecidableEq, Repr

/-- `Hotspot`: `id` is the attention sequence rank (the spec's `order`),
`x`,`y` are percentages in [0,100], `intensity` in [0,1], `label` optional. -/
structure Hotspot where
  id : Int
  x : ℚ
  y : ℚ
  intensity : ℚ
  label : Option String := none
deriving DecidableEq, Repr

/-- The resolved natural dimensions of the image (`dimensions` state). -/
structure Dimensions where
  width : Nat
  height : Nat
deriving DecidableEq, Repr

/-! ## Image metrics resolver -/

/-- `onImageLoad`: stores `{naturalWidth, naturalHeight}` only when both are
positive; returns `none` when no store happens. -/
def onImageLoad (naturalWidth naturalHeight : Nat) : Option Dimensions :=
  if 0 < naturalWidth ∧ 0 < naturalHeight then
    some ⟨naturalWidth, naturalHeight⟩
  else
    none

/-- The cached-image effect: if the image ref is present, the image is
`complete`, and `naturalWidth > 0`, it stores
`{naturalWidth, naturalHeight}` — the height is not checked on this path.
Returns `none` when no store happens. -/
def cachedImageCheck (refPresent complete : Bool) (naturalWidth naturalHeight : Nat) :
    Option Dimensions :=
  if refPresent ∧ complete ∧ 0 < naturalWidth then
    some ⟨naturalWidth, naturalHeight⟩
  else
    none

/-! ## Canvas model -/

/-- One radial-gradient color stop: offset in [0,1], straight (not
premultiplied) RGB in 0..255 and alpha in [0,1]. -/
structure GradStop where
  off : ℚ
  red : ℚ
  green : ℚ
  blue : ℚ
  alpha : ℚ
deriving DecidableEq, Repr

/-- A fill/stroke style: a solid RGBA color or a radial gradient from
`(cx, cy, 0)` to `(cx, cy, radius)`. -/
inductive FillStyle
  | color (red green blue : ℚ) (alpha : ℚ)
  | radial (cx cy radius : ℚ) (stops : List GradStop)
deriving DecidableEq, Repr

/-- `globalCompositeOperation` values used by the component. -/
inductive CompositeOp
  | sourceOver
  | screen
  | destinationOut
deriving DecidableEq, Repr

/-- The mutable 2D-context state the component touches. -/
structure CtxState where
  composite : CompositeOp
  fillStyle : FillStyle
  strokeStyle : FillStyle
  lineWidth : ℚ
  lineDash : List ℚ
  shadowBlur : ℚ
deriving DecidableEq, Repr

/-- A drawing operation, recording the context state it executed under. -/
inductive CanvasOp
  | setSize (w h : Nat)
  | clearRect (w h : Nat)
  | fillRect (w h : Nat) (style : FillStyle) (comp : CompositeOp)
  | fillArc (cx cy radius : ℚ) (style : FillStyle) (comp : CompositeOp) (shadowBlur : ℚ)
  | strokePolyline (pts : List (ℚ × ℚ)) (style : FillStyle) (width : ℚ)
      (dash : List ℚ) (comp : CompositeOp)
  | strokeArc (cx cy radius : ℚ) (style : FillStyle) (width : ℚ) (comp : CompositeOp)
  | fillText (n : Int) (x y : ℚ) (style : FillStyle) (size : ℚ) (comp : CompositeOp)
deriving DecidableEq, Repr

/-! ## Sorting (line 50: `[...hotspots].sort((a, b) => a.id - b.id)`) -/

/-- The comparator `(a, b) => a.id - b.id` sorts ascending by `id`. -/
def idLe (a b : Hotspot) : Prop := a.id ≤ b.id

instance : DecidableRel idLe := fun a b => inferInstanceAs (Decidable (a.id ≤ b.id))

instance : IsTotal Hotspot idLe := ⟨fun a b => Int.le_total a.id b.id⟩

instance : IsTrans Hotspot idLe := ⟨fun _ _ _ h1 h2 => le_trans h1 h2⟩

/-- Contents of the array produced by `.sort((a, b) => a.id - b.id)`. -/
def sortHotspots (l : List Hotspot) : List Hotspot := List.insertionSort idLe l

/-- Line 50: `const sortedHotspots = [...hotspots].sort((a, b) => a.id - b.id);`
The spread `[...hotspots]` allocates a fresh array with the same contents
and `sort` mutates only that fresh array.  The first component is the
contents of the caller-supplied `hotspots` array after the line executes;
the second is the contents of `sortedHotspots`. -/
def sortedHotspotsLine (hotspots : List Hotspot) : List Hotspot × List Hotspot :=
  (hotspots, sortHotspots hotspots)

/-! ## The render effect as a trace -/

/-- Coordinate mapping used by all three modes:
`(spot.x / 100) * canvas.width`, `(spot.y / 100) * canvas.height`. -/
def toPixel (d : Dimensions) (s : Hotspot) : ℚ × ℚ :=
  (s.x / 100 * d.width, s.y / 100 * d.height)

/-- The heat gradient (lines 62–68): stops at offsets 0, 0.4, 0.7, 1 with
colors red, orange, yellow, white and alphas `a`, `0.8·a`, `0.5·a`, 0. -/
def heatGradient (x y radius a : ℚ) : FillStyle :=
  .radial x y radius
    [⟨0, 255, 0, 0, a⟩, ⟨0.4, 255, 165, 0, a * 0.8⟩,
     ⟨0.7, 255, 255, 0, a * 0.5⟩, ⟨1, 255, 255, 255, 0⟩]

/-- One heatmap pass iteration (lines 56–74): radius
`min(w, h) * 0.12`, center alpha `max(0.3, min(0.9, intensity))`, filled
with `globalCompositeOperation = 'screen'`. -/
def heatSpotOp (d : Dimensions) (shadow : ℚ) (s : Hotspot) : CanvasOp :=
  let p := toPixel d s
  let radius := ((min d.width d.height : Nat) : ℚ) * 0.12
  let a := max 0.3 (min 0.9 s.intensity)
  .fillArc p.1 p.2 radius (heatGradient p.1 p.2 radius a) .screen shadow

/-- The style `heatSpotOp` fills with (for the final `fillStyle` state). -/
def heatStyleOf (d : Dimensions) (s : Hotspot) : FillStyle :=
  let p := toPixel d s
  let radius := ((min d.width d.height : Nat) : ℚ) * 0.12
  heatGradient p.1 p.2 radius (max 0.3 (min 0.9 s.intensity))

/-- The fog hole gradient (lines 95–98): erase fully at the center, half at
mid radius, nothing at the edge. -/
def fogGradient (x y radius : ℚ) : FillStyle :=
  .radial x y radius [⟨0, 0, 0, 0, 1⟩, ⟨0.5, 0, 0, 0, 0.5⟩, ⟨1, 0, 0, 0, 0⟩]

/-- One fog cut-out iteration (lines 90–104): radius `min(w, h) * 0.14`,
filled with `globalCompositeOperation = 'destination-out'`. -/
def fogSpotOp (d : Dimensions) (shadow : ℚ) (s : Hotspot) : CanvasOp :=
  let p := toPixel d s
  let radius := ((min d.width d.height : Nat) : ℚ) * 0.14
  .fillArc p.1 p.2 radius (fogGradient p.1 p.2 radius) .destinationOut shadow

/-- The style `fogSpotOp` fills with. -/
def fogStyleOf (d : Dimensions) (s : Hotspot) : FillStyle :=
  let p := toPixel d s
  fogGradient p.1 p.2 (((min d.width d.height : Nat) : ℚ) * 0.14)

/-- The pink accent `#ec4899`. -/
def pinkSolid : FillStyle := .color 236 72 153 1

/-- `#ffffff`. -/
def whiteSolid : FillStyle := .color 255 255 255 1

/-- Marker fill (line 138): `spot.id === 1 ? '#ec4899' : '#ffffff'`. -/
def markerFill (s : Hotspot) : FillStyle :=
  if s.id = 1 then pinkSolid else whiteSolid

/-- Number fill (line 150): `spot.id === 1 ? '#ffffff' : '#ec4899'`. -/
def markerTextFill (s : Hotspot) : FillStyle :=
  if s.id = 1 then whiteSolid else pinkSolid

/-- The three operations drawn per path marker (lines 128–155): shadowed
circle fill, `#ec4899` border of width 3 (shadow already reset to 0), and
the `id` number at `(x, y + 2)` in font size `max(12, circleRadius)`. -/
def markerOps (d : Dimensions) (comp : CompositeOp) (s : Hotspot) : List CanvasOp :=
  let p := toPixel d s
  let circleRadius := max 12 ((d.width : ℚ) * 0.015)
  [.fillArc p.1 p.2 circleRadius (markerFill s) comp 10,
   .strokeArc p.1 p.2 circleRadius pinkSolid 3 comp,
   .fillText s.id p.1 (p.2 + 2) (markerTextFill s) (max 12 circleRadius) comp]

/-- Concatenation of per-element operation lists. -/
def concatMap (f : α → List β) : List α → List β
  | [] => []
  | a :: l => f a ++ concatMap f l

/-- The render effect body (lines 33–158), entered with resolved
`dimensions`.  Returns the trace of drawing operations and the context
state left behind.  The canvas is resized to the natural resolution and
cleared; on an empty hotspot list the effect returns right there (before
the fog fill).  Otherwise the per-mode routine runs on the sorted copy of
the hotspot list. -/
def renderOps (ctx : CtxState) (d : Dimensions) (hotspots : List Hotspot)
    (mode : VisualizationMode) : List CanvasOp × CtxState :=
  let base : List CanvasOp := [.setSize d.width d.height, .clearRect d.width d.height]
  if hotspots.isEmpty then
    (base, ctx)
  else
    let sorted := (sortedHotspotsLine hotspots).2
    match mode with
    | .heatmap =>
      -- lines 55–77: per spot, comp := 'screen', fillStyle := gradient,
      -- fill the arc; after the loop comp := 'source-over'.
      let ops := sorted.map (heatSpotOp d ctx.shadowBlur)
      let finalFill := match sorted.getLast? with
        | some s => heatStyleOf d s
        | none => ctx.fillStyle
      (base ++ ops,
       ⟨.sourceOver, finalFill, ctx.strokeStyle, ctx.lineWidth, ctx.lineDash, ctx.shadowBlur⟩)
    | .fogmap =>
      -- lines 82–106: fill with rgba(15,23,42,0.92) under the incoming
      -- composite operation, then cut holes under 'destination-out',
      -- then comp := 'source-over'.
      let fogFill := CanvasOp.fillRect d.width d.height (.color 15 23 42 0.92) ctx.composite
      let ops := sorted.map (fogSpotOp d ctx.shadowBlur)
      let finalFill := match sorted.getLast? with
        | some s => fogStyleOf d s
        | none => FillStyle.color 15 23 42 0.92
      (base ++ fogFill :: ops,
       ⟨.sourceOver, finalFill, ctx.strokeStyle, ctx.lineWidth, ctx.lineDash, ctx.shadowBlur⟩)
    | .path =>
      -- lines 111–156: dashed polyline through the sorted points under the
      -- incoming composite operation, then the markers on top.
      let pts := sorted.map (toPixel d)
      let lw := max 2 ((d.width : ℚ) * 0.003)
      let strokeC := FillStyle.color 236 72 153 0.8
      let polyOp := CanvasOp.strokePolyline pts strokeC lw [15, 10] ctx.composite
      let markers := concatMap (markerOps d ctx.composite) sorted
      let finalText := match sorted.getLast? with
        | some s => markerTextFill s
        | none => ctx.fillStyle
      (base ++ polyOp :: markers,
       ⟨ctx.composite, finalText, pinkSolid, 3, [], 0⟩)

/-- The effect including its guard (line 35): with unresolved `dimensions`
nothing at all happens. -/
def renderEffect (ctx : CtxState) (dims : Option Dimensions) (hotspots : List Hotspot)
    (mode : VisualizationMode) : List CanvasOp × CtxState :=
  match dims with
  | none => ([], ctx)
  | some d => renderOps ctx d hotspots mode

/-! ## Pixel-level semantics of the trace -/

/-- A premultiplied-alpha pixel; color channels and alpha in `[0,1]`. -/
@[ext]
structure Pixel where
  red : ℝ
  green : ℝ
  blue : ℝ
  alpha : ℝ

/-- The fully transparent pixel. -/
def Pixel.clear : Pixel := ⟨0, 0, 0, 0⟩

/-- Porter–Duff/blend compositing of a source pixel over a destination
pixel, on premultiplied values.  `screen` is `x + y - x·y` on every
channel (alpha composites as in source-over); `destination-out` keeps the
destination scaled by the source's transparency. -/
def compositePix : CompositeOp → Pixel → Pixel → Pixel
  | .sourceOver, dst, src =>
      ⟨src.red + dst.red * (1 - src.alpha), src.green + dst.green * (1 - src.alpha),
       src.blue + dst.blue * (1 - src.alpha), src.alpha + dst.alpha * (1 - src.alpha)⟩
  | .screen, dst, src =>
      ⟨src.red + dst.red - src.red * dst.red, src.green + dst.green - src.green * dst.green,
       src.blue + dst.blue - src.blue * dst.blue,
       src.alpha + dst.alpha - src.alpha * dst.alpha⟩
  | .destinationOut, dst, src =>
      ⟨dst.red * (1 - src.alpha), dst.green * (1 - src.alpha),
       dst.blue * (1 - src.alpha), dst.alpha * (1 - src.alpha)⟩

/-- Straight RGBA (RGB in 0..255, alpha in [0,1]) to a premultiplied pixel. -/
noncomputable def straightToPremul (r g b a : ℝ) : Pixel :=
  ⟨a * (r / 255), a * (g / 255), a * (b / 255), a⟩

/-- The (straight-interpolated) color of the gradient between two stops at
position `t`. -/
noncomputable def gradSegment (s1 s2 : GradStop) (t : ℝ) : Pixel :=
  let u := (t - (s1.off : ℝ)) / ((s2.off : ℝ) - (s1.off : ℝ))
  straightToPremul ((s1.red : ℝ) + u * ((s2.red : ℝ) - (s1.red : ℝ)))
    ((s1.green : ℝ) + u * ((s2.green : ℝ) - (s1.green : ℝ)))
    ((s1.blue : ℝ) + u * ((s2.blue : ℝ) - (s1.blue : ℝ)))
    ((s1.alpha : ℝ) + u * ((s2.alpha : ℝ) - (s1.alpha : ℝ)))

/-- Sample a gradient at position `t`, given the most recent stop at or
before `t` and the remaining stops; past the last stop the last color
extends. -/
noncomputable def gradSample (s1 : GradStop) : List GradStop → ℝ → Pixel
  | [], _ => straightToPremul s1.red s1.green s1.blue s1.alpha
  | s2 :: rest, t => if t ≤ (s2.off : ℝ) then gradSegment s1 s2 t else gradSample s2 rest t

/-- The source color a style produces at real position `(px, py)`. -/
noncomputable def styleAt (st : FillStyle) (px py : ℝ) : Pixel :=
  match st with
  | .color r g b a => straightToPremul r g b a
  | .radial cx cy radius stops =>
    match stops with
    | [] => Pixel.clear
    | s0 :: rest =>
      if (radius : ℝ) ≤ 0 then Pixel.clear
      else
        let t := Real.sqrt ((px - (cx : ℝ)) ^ 2 + (py - (cy : ℝ)) ^ 2) / (radius : ℝ)
        if t ≤ (s0.off : ℝ) then straightToPremul s0.red s0.green s0.blue s0.alpha
        else gradSample s0 rest t

/-- An interpretation of the source coverage of operations whose rasterized
geometry the 2D canvas specification leaves environment-dependent
(shadowed fills, strokes, text glyphs). -/
def SourceInterp : Type := CanvasOp → Nat → Nat → Pixel

/-- The source pixel an operation contributes at integer position
`(px, py)`: exact for rectangle fills and unshadowed gradient arc fills
(the arc clips the gradient to its radius), delegated to `interp` for
shadowed fills, strokes and text. -/
noncomputable def opSource (interp : SourceInterp) (op : CanvasOp) (px py : Nat) : Pixel :=
  match op with
  | .setSize _ _ => Pixel.clear
  | .clearRect _ _ => Pixel.clear
  | .fillRect w h st _ =>
      if px < w ∧ py < h then styleAt st px py else Pixel.clear
  | .fillArc cx cy radius st _ shadow =>
      if shadow = 0 then
        if Real.sqrt (((px : ℝ) - (cx : ℝ)) ^ 2 + ((py : ℝ) - (cy : ℝ)) ^ 2) ≤ (radius : ℝ) then
          styleAt st px py
        else Pixel.clear
      else interp op px py
  | .strokePolyline _ _ _ _ _ => interp op px py
  | .strokeArc _ _ _ _ _ _ => interp op px py
  | .fillText _ _ _ _ _ _ => interp op px py

/-- The composite operation an operation was executed under. -/
def opComp : CanvasOp → CompositeOp
  | .setSize _ _ => .sourceOver
  | .clearRect _ _ => .sourceOver
  | .fillRect _ _ _ c => c
  | .fillArc _ _ _ _ c _ => c
  | .strokePolyline _ _ _ _ c => c
  | .strokeArc _ _ _ _ _ c => c
  | .fillText _ _ _ _ _ c => c

/-- The drawing surface: pixel resolution plus pixel contents. -/
@[ext]
structure Surface where
  width : Nat
  height : Nat
  pix : Nat → Nat → Pixel

/-- A blank (fully transparent) surface. -/
def blankSurface (w h : Nat) : Surface := ⟨w, h, fun _ _ => Pixel.clear⟩

/-- Apply one operation to the surface.  Assigning `canvas.width` and
`canvas.height` resets the canvas to a blank bitmap of the new size;
`clearRect` makes its rectangle transparent; drawing operations composite
their source coverage per pixel under the recorded composite operation. -/
noncomputable def applyOp (interp : SourceInterp) (s : Surface) : CanvasOp → Surface
  | .setSize w h => blankSurface w h
  | .clearRect w h =>
      ⟨s.width, s.height,
       fun px py => if px < w ∧ py < h then Pixel.clear else s.pix px py⟩
  | op =>
      ⟨s.width, s.height,
       fun px py => compositePix (opComp op) (s.pix px py) (opSource interp op px py)⟩

/-- Run a trace over a starting surface. -/
noncomputable def rasterize (interp : SourceInterp) (s : Surface) (ops : List CanvasOp) :
    Surface :=
  ops.foldl (applyOp interp) s

/-- The alpha channel of the surface at `(px, py)`. -/
noncomputable def alphaAt (s : Surface) (px py : Nat) : ℝ := (s.pix px py).alpha

/-! ## Helper lemmas -/

instance : IsAntisymm Hotspot (fun a b => a.id < b.id) :=
  ⟨fun _ _ h1 h2 => absurd (lt_trans h1 h2) (lt_irrefl _)⟩

/-- Sorting returns a permutation of the input. -/
theorem sortHotspots_perm (l : List Hotspot) : List.Perm (sortHotspots l) l :=
  List.perm_insertionSort idLe l

/-- Sorting sorts ascending by `id`. -/
theorem sortHotspots_sorted (l : List Hotspot) : List.Sorted idLe (sortHotspots l) :=
  List.sorted_insertionSort idLe l

/-- With pairwise-distinct `id`s the sort is strictly ascending. -/
theorem sortHotspots_strict (l : List Hotspot) (hu : (l.map Hotspot.id).Nodup) :
    List.Pairwise (fun a b : Hotspot => a.id < b.id) (sortHotspots l) := by
  have hu2 : ((sortHotspots l).map Hotspot.id).Nodup :=
    (hu.perm ((sortHotspots_perm l).map Hotspot.id).symm)
  have hne : (sortHotspots l).Pairwise (fun a b : Hotspot => a.id ≠ b.id) :=
    (List.pairwise_map).mp hu2
  exact ((sortHotspots_sorted l).and hne).imp fun h => lt_of_le_of_ne h.1 h.2

/-- With pairwise-distinct `id`s, all permutations of the input sort to the
same list: the canonical rendering sequence. -/
theorem sortHotspots_eq_of_perm (l l2 : List Hotspot) (hu : (l.map Hotspot.id).Nodup)
    (h : List.Perm l2 l) : sortHotspots l2 = sortHotspots l := by
  have hu2 : (l2.map Hotspot.id).Nodup := hu.perm (h.map Hotspot.id).symm
  have hp : List.Perm (sortHotspots l2) (sortHotspots l) :=
    ((sortHotspots_perm l2).trans h).trans (sortHotspots_perm l).symm
  exact List.eq_of_perm_of_sorted hp (sortHotspots_strict l2 hu2) (sortHotspots_strict l hu)

/-- The first two operations of every render build the blank surface. -/
theorem rasterize_base (interp : SourceInterp) (s : Surface) (w h : Nat)
    (rest : List CanvasOp) :
    rasterize interp s (.setSize w h :: .clearRect w h :: rest) =
      rasterize interp (blankSurface w h) rest := by
  have h1 : applyOp interp s (.setSize w h) = blankSurface w h := rfl
  have h2 : applyOp interp (blankSurface w h) (.clearRect w h) = blankSurface w h := by
    show Surface.mk w h _ = blankSurface w h
    unfold blankSurface
    refine Surface.ext rfl rfl ?_
    funext px py
    by_cases hp : px < w ∧ py < h <;> simp [hp]
  show rasterize interp (applyOp interp (applyOp interp s (.setSize w h)) (.clearRect w h)) rest = _
  rw [h1, h2]

/-! ## Trace projections -/

/-- The center of a (gradient or marker) arc fill. -/
def opArcCenter : CanvasOp → Option (ℚ × ℚ)
  | .fillArc cx cy _ _ _ _ => some (cx, cy)
  | _ => none

/-- The style of an arc fill. -/
def opFillArcStyle : CanvasOp → Option FillStyle
  | .fillArc _ _ _ st _ _ => some st
  | _ => none

/-- The style of a text fill. -/
def opTextStyle : CanvasOp → Option FillStyle
  | .fillText _ _ _ st _ _ => some st
  | _ => none

/-- The vertex list of a stroked polyline. -/
def opPolylinePts : CanvasOp → Option (List (ℚ × ℚ))
  | .strokePolyline pts _ _ _ _ => some pts
  | _ => none

/-- A default context: the 2D canvas initial state on the fields we track. -/
def ctx0 : CtxState := ⟨.sourceOver, whiteSolid, whiteSolid, 1, [], 0⟩

/-- A source interpretation contributing nothing. -/
def interp0 : SourceInterp := fun _ _ _ => Pixel.clear

theorem filterMap_concatMap (g : β → Option γ) (f : α → List β) (l : List α) :
    List.filterMap g (concatMap f l) = concatMap (fun a => List.filterMap g (f a)) l := by
  induction l with
  | nil => rfl
  | cons a l ih => simp [concatMap, List.filterMap_append, ih]

theorem concatMap_singleton (f : α → β) (l : List α) :
    concatMap (fun a => [f a]) l = l.map f := by
  induction l with
  | nil => rfl
  | cons a l ih => simp [concatMap, ih]

/-! ## Claims -/

/-- **C1 (counterexample).** The claim says an empty attention set under
`fogmap` leaves the surface uniformly near-opaque with zero transparent
pixels.  On the code, the render effect returns right after clearing the
canvas when the hotspot list is empty — before the fog fill — so on a
2×2 surface the pixel (0,0) has alpha 0, i.e. is fully transparent, not
near-opaque. -/
theorem c1_fogmap_empty_counterexample :
    alphaAt (rasterize interp0 (blankSurface 0 0)
        (renderOps ctx0 ⟨2, 2⟩ [] .fogmap).1) 0 0 = 0 ∧ (0 : ℝ) ≠ 0.92 := by
  constructor
  · have hops : (renderOps ctx0 ⟨2, 2⟩ [] .fogmap).1 =
        [.setSize 2 2, .clearRect 2 2] := by
      simp [renderOps]
    rw [hops, rasterize_base]
    rfl
  · norm_num

/-- **C1 (amended).** For an empty attention set and any resolved metrics,
rendering in any of the three modes — `fogmap` included, because the
effect returns after clearing and before the fog fill — leaves the
surface with zero non-transparent pixels: every pixel has alpha 0, under
every source interpretation, every prior surface, and every context
state. -/
theorem c1_empty_set_amended (ctx : CtxState) (d : Dimensions) (mode : VisualizationMode)
    (interp : SourceInterp) (prev : Surface) (px py : Nat) :
    alphaAt (rasterize interp prev (renderOps ctx d [] mode).1) px py = 0 := by
  have hops : (renderOps ctx d [] mode).1 =
      [.setSize d.width d.height, .clearRect d.width d.height] := by
    simp [renderOps]
  rw [hops, rasterize_base]
  rfl

/-- **C2 (counterexample).** The claim says both dimension-resolution
paths discard readings with a zero dimension.  The cached-image
inspection path checks only `naturalWidth > 0`: a complete image
reporting natural size 5×0 is stored as `{width := 5, height := 0}`, and
the rasterizer — whose guard only requires `dimensions` to be resolved —
then draws on the zero-area surface (the trace is non-empty). -/
theorem c2_cached_zero_height_counterexample :
    cachedImageCheck true true 5 0 = some ⟨5, 0⟩ ∧
      ¬ 0 < (Dimensions.mk 5 0).height ∧
      (renderEffect ctx0 (some ⟨5, 0⟩) [⟨1, 50, 50, 1/2, none⟩] .heatmap).1 ≠ [] := by
  refine ⟨by decide, by decide, ?_⟩
  simp [renderEffect, renderOps]

/-- **C2 (amended).** The load-notification path stores only readings with
both dimensions strictly positive; the cached-image inspection path
checks only the width, so it stores any reading with positive width —
including one whose height is zero. -/
theorem c2_dimension_guards_amended :
    (∀ nw nh dd, onImageLoad nw nh = some dd → 0 < dd.width ∧ 0 < dd.height) ∧
      (∀ rp c nw nh dd, cachedImageCheck rp c nw nh = some dd → 0 < dd.width) ∧
      cachedImageCheck true true 5 0 = some ⟨5, 0⟩ := by
  refine ⟨?_, ?_, by decide⟩
  · intro nw nh dd h
    unfold onImageLoad at h
    split at h
    · rename_i hc
      cases h
      exact hc
    · cases h
  · intro rp c nw nh dd h
    unfold cachedImageCheck at h
    split at h
    · rename_i hc
      cases h
      exact hc.2.2
    · cases h

/-- **C2 (witness).** The amended theorem applied at concrete inputs: a
4×3 load-notification reading is stored with both dimensions positive. -/
theorem c2_dimension_guards_witness :
    0 < (Dimensions.mk 4 3).width ∧ 0 < (Dimensions.mk 4 3).height :=
  c2_dimension_guards_amended.1 4 3 ⟨4, 3⟩ (by decide)

/-- **C3 (counterexample).** The claim says the point whose `order` is the
minimum of the set is drawn with inverted colors even when orders do not
start at 1.  For the set with orders {2, 3}, the code (`spot.id === 1`)
draws both markers with the standard white fill: the minimum-order point
is not inverted. -/
theorem c3_min_order_not_inverted_counterexample :
    ((renderOps ctx0 ⟨100, 100⟩ [⟨2, 10, 10, 1/2, none⟩, ⟨3, 20, 20, 1/2, none⟩] .path).1.filterMap
        opFillArcStyle) = [whiteSolid, whiteSolid] ∧ whiteSolid ≠ pinkSolid := by
  constructor
  · simp [renderOps, sortedHotspotsLine, sortHotspots, List.insertionSort, List.orderedInsert,
      idLe, concatMap, markerOps, markerFill, opFillArcStyle]
  · decide

/-- The heatmap trace for a non-empty set: resize, clear, then one
screen-blended gradient arc per sorted point. -/
theorem renderOps_heatmap_trace (ctx : CtxState) (d : Dimensions) (l : List Hotspot)
    (hne : l ≠ []) :
    (renderOps ctx d l .heatmap).1 =
      CanvasOp.setSize d.width d.height :: CanvasOp.clearRect d.width d.height ::
        (sortHotspots l).map (heatSpotOp d ctx.shadowBlur) := by
  cases l with
  | nil => exact absurd rfl hne
  | cons a l => simp [renderOps, sortedHotspotsLine]

/-- The fogmap trace for a non-empty set: resize, clear, the near-opaque
fog fill, then one destination-out gradient arc per sorted point. -/
theorem renderOps_fogmap_trace (ctx : CtxState) (d : Dimensions) (l : List Hotspot)
    (hne : l ≠ []) :
    (renderOps ctx d l .fogmap).1 =
      CanvasOp.setSize d.width d.height :: CanvasOp.clearRect d.width d.height ::
        CanvasOp.fillRect d.width d.height (.color 15 23 42 0.92) ctx.composite ::
        (sortHotspots l).map (fogSpotOp d ctx.shadowBlur) := by
  cases l with
  | nil => exact absurd rfl hne
  | cons a l => simp [renderOps, sortedHotspotsLine]

/-- The path trace for a non-empty set: resize, clear, the dashed polyline
through the sorted points, then the three marker operations per point. -/
theorem renderOps_path_trace (ctx : CtxState) (d : Dimensions) (l : List Hotspot)
    (hne : l ≠ []) :
    (renderOps ctx d l .path).1 =
      CanvasOp.setSize d.width d.height :: CanvasOp.clearRect d.width d.height ::
        CanvasOp.strokePolyline ((sortHotspots l).map (toPixel d)) (.color 236 72 153 0.8)
          (max 2 ((d.width : ℚ) * 0.003)) [15, 10] ctx.composite ::
        concatMap (markerOps d ctx.composite) (sortHotspots l) := by
  cases l with
  | nil => exact absurd rfl hne
  | cons a l => simp [renderOps, sortedHotspotsLine]

/-- An empty set renders just the resize and clear, in every mode. -/
theorem renderOps_nil_trace (ctx : CtxState) (d : Dimensions) (mode : VisualizationMode) :
    (renderOps ctx d [] mode).1 =
      [CanvasOp.setSize d.width d.height, CanvasOp.clearRect d.width d.height] := by
  simp [renderOps]

/-- **C3 (amended).** In path mode the marker fills, in canonical order,
are `markerFill` of each sorted point and the number fills are
`markerTextFill`: exactly the points whose `order` equals the literal 1
get the inverted style (colored fill, white number); all other points —
the minimum-order point included, whenever its order is not 1 — get the
standard style (white fill, colored number). -/
theorem c3_marker_styles_amended (ctx : CtxState) (d : Dimensions) (l : List Hotspot) :
    ((renderOps ctx d l .path).1.filterMap opFillArcStyle) = (sortHotspots l).map markerFill ∧
      ((renderOps ctx d l .path).1.filterMap opTextStyle) = (sortHotspots l).map markerTextFill ∧
      ∀ s : Hotspot, (markerFill s = pinkSolid ↔ s.id = 1) ∧
        (markerTextFill s = whiteSolid ↔ s.id = 1) := by
  refine ⟨?_, ?_, ?_⟩
  · cases l with
    | nil => simp [renderOps_nil_trace, sortHotspots, List.insertionSort, opFillArcStyle]
    | cons a l =>
      rw [renderOps_path_trace _ _ _ (by simp)]
      simp only [List.filterMap_cons, opFillArcStyle]
      rw [filterMap_concatMap]
      have hm : (fun s => List.filterMap opFillArcStyle (markerOps d ctx.composite s)) =
          fun s => [markerFill s] := by
        funext s
        rfl
      rw [hm, concatMap_singleton]
  · cases l with
    | nil => simp [renderOps_nil_trace, sortHotspots, List.insertionSort, opTextStyle]
    | cons a l =>
      rw [renderOps_path_trace _ _ _ (by simp)]
      simp only [List.filterMap_cons, opTextStyle]
      rw [filterMap_concatMap]
      have hm : (fun s => List.filterMap opTextStyle (markerOps d ctx.composite s)) =
          fun s => [markerTextFill s] := by
        funext s
        rfl
      rw [hm, concatMap_singleton]
  · intro s
    by_cases h : s.id = 1 <;>
      refine ⟨?_, ?_⟩ <;> simp [markerFill, markerTextFill, h] <;> decide

theorem concatMap_const_nil (l : List α) (f : α → List β) (hf : ∀ a, f a = []) :
    concatMap f l = [] := by
  induction l with
  | nil => rfl
  | cons a l ih => simp [concatMap, hf, ih]

/-- **C4.** In path mode, for every non-empty list with unique `order`
values, the trace contains exactly one polyline; its vertices are the
sorted points mapped to pixels, so it consists of exactly N−1 open
segments (consecutive vertex pairs) traversed in strictly ascending
`order`; and the whole path trace is invariant under permutation of the
input list. -/
theorem c4_path_polyline_segments (ctx : CtxState) (d : Dimensions) (l : List Hotspot)
    (hne : l ≠ []) (hu : (l.map Hotspot.id).Nodup) :
    ∃ pts, (renderOps ctx d l .path).1.filterMap opPolylinePts = [pts] ∧
      pts = (sortHotspots l).map (toPixel d) ∧
      pts.length = l.length ∧
      (pts.zip pts.tail).length = l.length - 1 ∧
      List.Pairwise (fun a b : Hotspot => a.id < b.id) (sortHotspots l) ∧
      ∀ l2, List.Perm l2 l → (renderOps ctx d l2 .path).1 = (renderOps ctx d l .path).1 := by
  refine ⟨(sortHotspots l).map (toPixel d), ?_, rfl, ?_, ?_, sortHotspots_strict l hu, ?_⟩
  · rw [renderOps_path_trace _ _ _ hne]
    simp only [List.filterMap_cons, opPolylinePts]
    rw [filterMap_concatMap, concatMap_const_nil]
    intro s
    rfl
  · rw [List.length_map, (sortHotspots_perm l).length_eq]
  · rw [List.length_zip, List.length_tail, List.length_map,
      (sortHotspots_perm l).length_eq, min_eq_right (Nat.sub_le _ _)]
  · intro l2 hp
    have hne2 : l2 ≠ [] := by
      intro h
      rw [h] at hp
      exact hne hp.symm.eq_nil
    rw [renderOps_path_trace _ _ _ hne2, renderOps_path_trace _ _ _ hne,
      sortHotspots_eq_of_perm l l2 hu hp]

/-- **C4 (witness).** The theorem applied at a concrete two-point set whose
orders are 7 and 3: the polyline has the two pixel positions in ascending
order (3 before 7), i.e. one segment. -/
theorem c4_path_polyline_segments_witness :
    ∃ pts, (renderOps ctx0 ⟨100, 100⟩
        [⟨7, 10, 10, 1/2, none⟩, ⟨3, 20, 20, 1/2, none⟩] .path).1.filterMap opPolylinePts =
        [pts] ∧
      pts = (sortHotspots [⟨7, 10, 10, 1/2, none⟩, ⟨3, 20, 20, 1/2, none⟩]).map
        (toPixel ⟨100, 100⟩) ∧
      pts.length = 2 ∧
      (pts.zip pts.tail).length = 2 - 1 ∧
      List.Pairwise (fun a b : Hotspot => a.id < b.id)
        (sortHotspots [⟨7, 10, 10, 1/2, none⟩, ⟨3, 20, 20, 1/2, none⟩]) ∧
      ∀ l2, List.Perm l2 [⟨7, 10, 10, 1/2, none⟩, ⟨3, 20, 20, 1/2, none⟩] →
        (renderOps ctx0 ⟨100, 100⟩ l2 .path).1 =
          (renderOps ctx0 ⟨100, 100⟩ [⟨7, 10, 10, 1/2, none⟩, ⟨3, 20, 20, 1/2, none⟩] .path).1 :=
  c4_path_polyline_segments ctx0 ⟨100, 100⟩ _ (by decide) (by decide)

/-- **C5.** The pixel position used by all three modes: in every mode the
arc-fill centers of the trace are exactly `toPixel` of the sorted points,
`toPixel` computes `(x/100·width, y/100·height)`, and in particular
`(0,0)` maps to the origin, `(100,100)` to the bottom-right corner
`(width, height)`, and `(50,50)` to the exact center `(width/2, height/2)`
of any resolved surface. -/
theorem c5_coordinate_mapping :
    (∀ (ctx : CtxState) (d : Dimensions) (l : List Hotspot) (mode : VisualizationMode),
        (renderOps ctx d l mode).1.filterMap opArcCenter = (sortHotspots l).map (toPixel d)) ∧
      (∀ (d : Dimensions) (s : Hotspot),
        toPixel d s = (s.x * d.width / 100, s.y * d.height / 100)) ∧
      (∀ (d : Dimensions) (i : Int) (inten : ℚ) (lab : Option String),
        toPixel d ⟨i, 0, 0, inten, lab⟩ = (0, 0)) ∧
      (∀ (d : Dimensions) (i : Int) (inten : ℚ) (lab : Option String),
        toPixel d ⟨i, 100, 100, inten, lab⟩ = ((d.width : ℚ), (d.height : ℚ))) ∧
      (∀ (d : Dimensions) (i : Int) (inten : ℚ) (lab : Option String),
        toPixel d ⟨i, 50, 50, inten, lab⟩ = ((d.width : ℚ) / 2, (d.height : ℚ) / 2)) := by
  refine ⟨?_, ?_, ?_, ?_, ?_⟩
  · intro ctx d l mode
    cases l with
    | nil => rw [renderOps_nil_trace]; rfl
    | cons a l =>
      cases mode with
      | heatmap =>
        rw [renderOps_heatmap_trace _ _ _ (by simp)]
        simp only [List.filterMap_cons, opArcCenter, List.filterMap_map]
        have hm : opArcCenter ∘ heatSpotOp d ctx.shadowBlur = some ∘ toPixel d := by
          funext s
          rfl
        rw [hm, List.filterMap_eq_map]
      | fogmap =>
        rw [renderOps_fogmap_trace _ _ _ (by simp)]
        simp only [List.filterMap_cons, opArcCenter, List.filterMap_map]
        have hm : opArcCenter ∘ fogSpotOp d ctx.shadowBlur = some ∘ toPixel d := by
          funext s
          rfl
        rw [hm, List.filterMap_eq_map]
      | path =>
        rw [renderOps_path_trace _ _ _ (by simp)]
        simp only [List.filterMap_cons, opArcCenter]
        rw [filterMap_concatMap]
        have hm : (fun s => List.filterMap opArcCenter (markerOps d ctx.composite s)) =
            fun s => [toPixel d s] := by
          funext s
          rfl
        rw [hm, concatMap_singleton]
  · intro d s
    unfold toPixel
    simp only [Prod.mk.injEq]
    constructor <;> ring
  · intro d i inten lab
    unfold toPixel
    norm_num
  · intro d i inten lab
    unfold toPixel
    norm_num
  · intro d i inten lab
    unfold toPixel
    simp only [Prod.mk.injEq]
    constructor <;> · show (50 : ℚ) / 100 * _ = _ / 2; ring

/-- The radius of an arc fill. -/
def opFillRadius : CanvasOp → Option ℚ
  | .fillArc _ _ radius _ _ _ => some radius
  | _ => none

/-- The gradient stops of a style. -/
def styleStops : FillStyle → List GradStop
  | .color _ _ _ _ => []
  | .radial _ _ _ stops => stops

/-- The style of an operation, when it fills. -/
def opStyle : CanvasOp → Option FillStyle
  | .fillRect _ _ st _ => some st
  | .fillArc _ _ _ st _ _ => some st
  | _ => none

/-- **C6.** For every point of the set, the heatmap trace contains its
radial-falloff arc; that arc has radius exactly `0.12 · min(width,
height)`; its gradient stops sit at offsets 0, 0.4, 0.7, 1 with alphas
`a`, `0.8·a`, `0.5·a`, `0` where `a = max(0.3, min(0.9, intensity))` is
the intensity clamped to `[0.3, 0.9]`; `a` never leaves `[0.3, 0.9]`, and
the stop alphas fade monotonically down to fully transparent at the
radius edge. -/
theorem c6_heatmap_radius_alpha (ctx : CtxState) (d : Dimensions) (l : List Hotspot)
    (s : Hotspot) (hs : s ∈ l) :
    heatSpotOp d ctx.shadowBlur s ∈ (renderOps ctx d l .heatmap).1 ∧
      opFillRadius (heatSpotOp d ctx.shadowBlur s) =
        some (((min d.width d.height : Nat) : ℚ) * 0.12) ∧
      ((opStyle (heatSpotOp d ctx.shadowBlur s)).map styleStops).map
          (List.map GradStop.alpha) =
        some [max 0.3 (min 0.9 s.intensity), max 0.3 (min 0.9 s.intensity) * 0.8,
          max 0.3 (min 0.9 s.intensity) * 0.5, 0] ∧
      ((opStyle (heatSpotOp d ctx.shadowBlur s)).map styleStops).map
          (List.map GradStop.off) = some [0, 0.4, 0.7, 1] ∧
      0.3 ≤ max 0.3 (min 0.9 s.intensity) ∧
      max 0.3 (min 0.9 s.intensity) ≤ 0.9 ∧
      max 0.3 (min 0.9 s.intensity) * 0.8 ≤ max 0.3 (min 0.9 s.intensity) ∧
      max 0.3 (min 0.9 s.intensity) * 0.5 ≤ max 0.3 (min 0.9 s.intensity) * 0.8 := by
  have ha1 : (0.3 : ℚ) ≤ max 0.3 (min 0.9 s.intensity) := le_max_left _ _
  have ha2 : max 0.3 (min 0.9 s.intensity) ≤ 0.9 :=
    max_le (by norm_num) (min_le_left _ _)
  have ha0 : (0 : ℚ) ≤ max 0.3 (min 0.9 s.intensity) := le_trans (by norm_num) ha1
  refine ⟨?_, rfl, rfl, rfl, ha1, ha2, by nlinarith, by nlinarith⟩
  rw [renderOps_heatmap_trace _ _ _ (List.ne_nil_of_mem hs)]
  have hmem : s ∈ sortHotspots l := ((sortHotspots_perm l).mem_iff).mpr hs
  exact List.mem_cons_of_mem _ (List.mem_cons_of_mem _ (List.mem_map_of_mem _ hmem))

/-- **C6 (witness).** The theorem applied to a concrete point of intensity
2 (above the clamp range) on a 200×100 surface: its arc is in the trace
with radius 12 and center alpha clamped to 0.9. -/
theorem c6_heatmap_radius_alpha_witness :
    heatSpotOp ⟨200, 100⟩ ctx0.shadowBlur ⟨1, 50, 50, 2, none⟩ ∈
        (renderOps ctx0 ⟨200, 100⟩ [⟨1, 50, 50, 2, none⟩] .heatmap).1 ∧
      opFillRadius (heatSpotOp ⟨200, 100⟩ ctx0.shadowBlur ⟨1, 50, 50, 2, none⟩) =
        some (((min 200 100 : Nat) : ℚ) * 0.12) ∧
      ((opStyle (heatSpotOp ⟨200, 100⟩ ctx0.shadowBlur ⟨1, 50, 50, 2, none⟩)).map styleStops).map
          (List.map GradStop.alpha) =
        some [max 0.3 (min 0.9 (2 : ℚ)), max 0.3 (min 0.9 (2 : ℚ)) * 0.8, max 0.3 (min 0.9 (2 : ℚ)) * 0.5, 0] ∧
      ((opStyle (heatSpotOp ⟨200, 100⟩ ctx0.shadowBlur ⟨1, 50, 50, 2, none⟩)).map styleStops).map
          (List.map GradStop.off) = some [0, 0.4, 0.7, 1] ∧
      (0.3 : ℚ) ≤ max 0.3 (min 0.9 (2 : ℚ)) ∧
      max 0.3 (min 0.9 (2 : ℚ)) ≤ 0.9 ∧
      max 0.3 (min 0.9 (2 : ℚ)) * 0.8 ≤ max 0.3 (min 0.9 (2 : ℚ)) ∧
      max 0.3 (min 0.9 (2 : ℚ)) * 0.5 ≤ max 0.3 (min 0.9 (2 : ℚ)) * 0.8 :=
  c6_heatmap_radius_alpha ctx0 ⟨200, 100⟩ [⟨1, 50, 50, 2, none⟩] ⟨1, 50, 50, 2, none⟩
    (by decide)

/-- The emitted trace reads the incoming context only through its
composite operation and shadow blur (every other context field is written
before it is used). -/
theorem renderOps_trace_ctx (ctx1 ctx2 : CtxState) (d : Dimensions) (l : List Hotspot)
    (mode : VisualizationMode) (hc : ctx1.composite = ctx2.composite)
    (hs : ctx1.shadowBlur = ctx2.shadowBlur) :
    (renderOps ctx1 d l mode).1 = (renderOps ctx2 d l mode).1 := by
  cases l with
  | nil => rw [renderOps_nil_trace, renderOps_nil_trace]
  | cons a l =>
    cases mode with
    | heatmap =>
      rw [renderOps_heatmap_trace _ _ _ (by simp), renderOps_heatmap_trace _ _ _ (by simp), hs]
    | fogmap =>
      rw [renderOps_fogmap_trace _ _ _ (by simp), renderOps_fogmap_trace _ _ _ (by simp), hc, hs]
    | path =>
      rw [renderOps_path_trace _ _ _ (by simp), renderOps_path_trace _ _ _ (by simp), hc]

/-- Every render trace begins by resizing and clearing the surface. -/
theorem renderOps_head (ctx : CtxState) (d : Dimensions) (l : List Hotspot)
    (mode : VisualizationMode) :
    ∃ rest, (renderOps ctx d l mode).1 =
      CanvasOp.setSize d.width d.height :: CanvasOp.clearRect d.width d.height :: rest := by
  cases l with
  | nil => exact ⟨[], renderOps_nil_trace ctx d mode⟩
  | cons a l =>
    cases mode with
    | heatmap => exact ⟨_, renderOps_heatmap_trace ctx d _ (by simp)⟩
    | fogmap => exact ⟨_, renderOps_fogmap_trace ctx d _ (by simp)⟩
    | path => exact ⟨_, renderOps_path_trace ctx d _ (by simp)⟩

/-- **C7.** With resolved metrics, the rendered surface is a pure function
of (metrics, mode, point set): the trace begins by resizing and clearing
the surface, and rasterizing it from any two prior surface contents — and
from any two context states agreeing on the persistent fields (composite
operation and shadow blur, the only ones the trace reads) — yields the
same surface.  In particular re-rendering identical inputs is
pixel-identical, and switching mode with the same data fully replaces the
previous mode's content with no residual pixels. -/
theorem c7_render_pure_function (interp : SourceInterp) (ctx1 ctx2 : CtxState)
    (d : Dimensions) (l : List Hotspot) (mode : VisualizationMode) (prev1 prev2 : Surface)
    (hc : ctx1.composite = ctx2.composite) (hs : ctx1.shadowBlur = ctx2.shadowBlur) :
    rasterize interp prev1 (renderOps ctx1 d l mode).1 =
        rasterize interp prev2 (renderOps ctx2 d l mode).1 ∧
      (renderOps ctx1 d l mode).1.take 2 =
        [CanvasOp.setSize d.width d.height, CanvasOp.clearRect d.width d.height] := by
  obtain ⟨rest, hrest⟩ := renderOps_head ctx1 d l mode
  constructor
  · rw [← renderOps_trace_ctx ctx1 ctx2 d l mode hc hs, hrest, rasterize_base, rasterize_base]
  · rw [hrest]
    rfl

/-- **C7 (witness).** The theorem at concrete inputs: the same heatmap
render over two different prior surfaces (a 0×0 blank and a 7×9 blank)
produces identical surfaces. -/
theorem c7_render_pure_function_witness :
    rasterize interp0 (blankSurface 0 0)
        (renderOps ctx0 ⟨4, 4⟩ [⟨1, 50, 50, 1/2, none⟩] .heatmap).1 =
      rasterize interp0 (blankSurface 7 9)
        (renderOps ctx0 ⟨4, 4⟩ [⟨1, 50, 50, 1/2, none⟩] .heatmap).1 :=
  (c7_render_pure_function interp0 ctx0 ctx0 ⟨4, 4⟩ [⟨1, 50, 50, 1/2, none⟩] .heatmap
    (blankSurface 0 0) (blankSurface 7 9) rfl rfl).1

/-- **C8.** After a heatmap render — whose per-point arcs are all drawn
under the additive-lightening `screen` operation — and after a fogmap
render — whose per-point arcs are all drawn under the subtractive
`destination-out` operation — the context's composite operation is
`source-over` again when the effect completes, for every non-empty point
set and every incoming context. -/
theorem c8_composite_restored (ctx : CtxState) (d : Dimensions) (l : List Hotspot)
    (hne : l ≠ []) :
    ((renderOps ctx d l .heatmap).2.composite = .sourceOver ∧
        ∀ op ∈ (renderOps ctx d l .heatmap).1.drop 2, opComp op = .screen) ∧
      ((renderOps ctx d l .fogmap).2.composite = .sourceOver ∧
        ∀ op ∈ (renderOps ctx d l .fogmap).1.drop 3, opComp op = .destinationOut) := by
  cases l with
  | nil => exact absurd rfl hne
  | cons a l =>
    refine ⟨⟨by simp [renderOps], ?_⟩, ⟨by simp [renderOps], ?_⟩⟩
    · rw [renderOps_heatmap_trace _ _ _ (by simp)]
      intro op hop
      obtain ⟨s, _, rfl⟩ := List.mem_map.mp hop
      rfl
    · rw [renderOps_fogmap_trace _ _ _ (by simp)]
      intro op hop
      obtain ⟨s, _, rfl⟩ := List.mem_map.mp hop
      rfl

/-- **C8 (witness).** The theorem at a concrete one-point set. -/
theorem c8_composite_restored_witness :
    ((renderOps ctx0 ⟨4, 4⟩ [⟨1, 50, 50, 1/2, none⟩] .heatmap).2.composite = .sourceOver ∧
        ∀ op ∈ (renderOps ctx0 ⟨4, 4⟩ [⟨1, 50, 50, 1/2, none⟩] .heatmap).1.drop 2,
          opComp op = .screen) ∧
      ((renderOps ctx0 ⟨4, 4⟩ [⟨1, 50, 50, 1/2, none⟩] .fogmap).2.composite = .sourceOver ∧
        ∀ op ∈ (renderOps ctx0 ⟨4, 4⟩ [⟨1, 50, 50, 1/2, none⟩] .fogmap).1.drop 3,
          opComp op = .destinationOut) :=
  c8_composite_restored ctx0 ⟨4, 4⟩ [⟨1, 50, 50, 1/2, none⟩] (by decide)

/-- **C9.** The renderer does not mutate the attention set it is given:
the spread `[...hotspots]` copies the array before sorting, so after the
sorting line the caller's array still holds exactly the input list, and
the sorted copy the renderer works from is a permutation of it (same
points, only reordered) — for every input list. -/
theorem c9_no_mutation (l : List Hotspot) :
    (sortedHotspotsLine l).1 = l ∧ List.Perm (sortedHotspotsLine l).2 l :=
  ⟨rfl, sortHotspots_perm l⟩

/-- `rasterize` steps through the trace one operation at a time. -/
theorem rasterize_cons (interp : SourceInterp) (s : Surface) (op : CanvasOp)
    (ops : List CanvasOp) :
    rasterize interp s (op :: ops) = rasterize interp (applyOp interp s op) ops := rfl

/-- `applyOp` on an arc fill composites the arc's source coverage under the
recorded composite operation. -/
theorem applyOp_fillArc (interp : SourceInterp) (s : Surface) (cx cy r : ℚ)
    (st : FillStyle) (c : CompositeOp) (b : ℚ) :
    applyOp interp s (.fillArc cx cy r st c b) =
      ⟨s.width, s.height, fun px py => compositePix c (s.pix px py)
        (opSource interp (.fillArc cx cy r st c b) px py)⟩ := rfl

/-- Per-pixel `screen` compositing is commutative across sources. -/
theorem compositePix_screen_comm (dt a b : Pixel) :
    compositePix .screen (compositePix .screen dt a) b =
      compositePix .screen (compositePix .screen dt b) a := by
  refine Pixel.ext ?_ ?_ ?_ ?_ <;> simp only [compositePix] <;> ring

/-- Per-pixel `destination-out` compositing is commutative across sources. -/
theorem compositePix_destOut_comm (dt a b : Pixel) :
    compositePix .destinationOut (compositePix .destinationOut dt a) b =
      compositePix .destinationOut (compositePix .destinationOut dt b) a := by
  refine Pixel.ext ?_ ?_ ?_ ?_ <;> simp only [compositePix] <;> ring

/-- Two `screen`-composited arc fills commute on any surface. -/
theorem applyOp_arc_screen_comm (interp : SourceInterp) (z : Surface)
    (cx1 cy1 r1 : ℚ) (st1 : FillStyle) (b1 : ℚ) (cx2 cy2 r2 : ℚ) (st2 : FillStyle) (b2 : ℚ) :
    applyOp interp (applyOp interp z (.fillArc cx1 cy1 r1 st1 .screen b1))
        (.fillArc cx2 cy2 r2 st2 .screen b2) =
      applyOp interp (applyOp interp z (.fillArc cx2 cy2 r2 st2 .screen b2))
        (.fillArc cx1 cy1 r1 st1 .screen b1) := by
  simp only [applyOp_fillArc]
  refine Surface.ext rfl rfl ?_
  funext px py
  exact compositePix_screen_comm _ _ _

/-- Two `destination-out`-composited arc fills commute on any surface. -/
theorem applyOp_arc_destOut_comm (interp : SourceInterp) (z : Surface)
    (cx1 cy1 r1 : ℚ) (st1 : FillStyle) (b1 : ℚ) (cx2 cy2 r2 : ℚ) (st2 : FillStyle) (b2 : ℚ) :
    applyOp interp (applyOp interp z (.fillArc cx1 cy1 r1 st1 .destinationOut b1))
        (.fillArc cx2 cy2 r2 st2 .destinationOut b2) =
      applyOp interp (applyOp interp z (.fillArc cx2 cy2 r2 st2 .destinationOut b2))
        (.fillArc cx1 cy1 r1 st1 .destinationOut b1) := by
  simp only [applyOp_fillArc]
  refine Surface.ext rfl rfl ?_
  funext px py
  exact compositePix_destOut_comm _ _ _

/-- **C10.** In heatmap and fogmap mode the rendered surface is invariant
under any permutation of the input point list (no uniqueness of `order`
required): the per-pixel `screen` blend and the per-pixel
`destination-out` erase are commutative across points, so the sorting
step can only affect path mode's output. -/
theorem c10_blend_permutation_invariant (interp : SourceInterp) (ctx : CtxState)
    (d : Dimensions) (prev : Surface) (l l2 : List Hotspot) (hp : List.Perm l l2) :
    rasterize interp prev (renderOps ctx d l .heatmap).1 =
        rasterize interp prev (renderOps ctx d l2 .heatmap).1 ∧
      rasterize interp prev (renderOps ctx d l .fogmap).1 =
        rasterize interp prev (renderOps ctx d l2 .fogmap).1 := by
  cases l with
  | nil =>
    have h2 : l2 = [] := hp.symm.eq_nil
    subst h2
    exact ⟨rfl, rfl⟩
  | cons a l =>
    have hne : (a :: l) ≠ [] := by simp
    have hne2 : l2 ≠ [] := by
      intro h
      subst h
      exact hne hp.eq_nil
    have hsp : List.Perm (sortHotspots (a :: l)) (sortHotspots l2) :=
      ((sortHotspots_perm (a :: l)).trans hp).trans (sortHotspots_perm l2).symm
    constructor
    · rw [renderOps_heatmap_trace _ _ _ hne, renderOps_heatmap_trace _ _ _ hne2,
        rasterize_base, rasterize_base]
      unfold rasterize
      rw [List.foldl_map, List.foldl_map]
      exact hsp.foldl_eq' (fun x _ y _ z => applyOp_arc_screen_comm interp z _ _ _ _ _ _ _ _ _ _) _
    · rw [renderOps_fogmap_trace _ _ _ hne, renderOps_fogmap_trace _ _ _ hne2,
        rasterize_base, rasterize_base, rasterize_cons, rasterize_cons]
      unfold rasterize
      rw [List.foldl_map, List.foldl_map]
      exact hsp.foldl_eq' (fun x _ y _ z => applyOp_arc_destOut_comm interp z _ _ _ _ _ _ _ _ _ _) _

/-- **C10 (witness).** The theorem at a concrete two-point set and its
swap. -/
theorem c10_blend_permutation_invariant_witness :
    rasterize interp0 (blankSurface 0 0)
        (renderOps ctx0 ⟨4, 4⟩ [⟨1, 10, 10, 1/2, none⟩, ⟨2, 90, 90, 1, none⟩] .heatmap).1 =
        rasterize interp0 (blankSurface 0 0)
          (renderOps ctx0 ⟨4, 4⟩ [⟨2, 90, 90, 1, none⟩, ⟨1, 10, 10, 1/2, none⟩] .heatmap).1 ∧
      rasterize interp0 (blankSurface 0 0)
          (renderOps ctx0 ⟨4, 4⟩ [⟨1, 10, 10, 1/2, none⟩, ⟨2, 90, 90, 1, none⟩] .fogmap).1 =
        rasterize interp0 (blankSurface 0 0)
          (renderOps ctx0 ⟨4, 4⟩ [⟨2, 90, 90, 1, none⟩, ⟨1, 10, 10, 1/2, none⟩] .fogmap).1 :=
  c10_blend_permutation_invariant interp0 ctx0 ⟨4, 4⟩ (blankSurface 0 0)
    [⟨1, 10, 10, 1/2, none⟩, ⟨2, 90, 90, 1, none⟩]
    [⟨2, 90, 90, 1, none⟩, ⟨1, 10, 10, 1/2, none⟩]
    (List.Perm.swap (⟨2, 90, 90, 1, none⟩ : Hotspot) (⟨1, 10, 10, 1/2, none⟩ : Hotspot) [])

end HeatMapStudio
